import Mathlib

/-!
Shallow embedding of the Mindbook backend (src/) and proofs about it.

The embedding covers:
* `src/rag/ingestion/utils.py`: `chunk_by_title` (chunking loop plus the
  small-chunk merge pass) and `separate_content_types`;
* `src/routes/userRoutes.py`: the `create_user` webhook handler over a
  small JSON value type and an abstract datastore of `clerk_id`s;
* `src/middleware/logging_middleware.py`: `LoggingMiddleware.dispatch`;
* `src/services/celery.py`: `perform_rag_ingestion_task`.

Python strings are modelled as Lean `String` (Python `len` is
`String.length`), Python lists as Lean `List`, integers as `Nat`.
-/

namespace Mindbook

/-- Mirrors `SimpleMetadata` of `utils.py`: per-element metadata. -/
structure SimpleMetadata where
  page_number : Nat := 1
deriving Repr, DecidableEq

/-- Mirrors `SimpleElement` of `utils.py`. -/
structure SimpleElement where
  text : String
  element_type : String := "NarrativeText"
  metadata : SimpleMetadata := {}
deriving Repr, DecidableEq

/-- Mirrors `SimpleChunkMetadata` of `utils.py`. -/
structure SimpleChunkMetadata where
  page_number : Nat := 1
  orig_elements : List SimpleElement := []
deriving Repr, DecidableEq

/-- Mirrors `SimpleChunk` of `utils.py`. -/
structure SimpleChunk where
  text : String
  metadata : SimpleChunkMetadata := {}
deriving Repr, DecidableEq

/-- Python's `"\n\n".join(texts)`. -/
def joinTexts : List String → String
  | [] => ""
  | [t] => t
  | t :: ts => t ++ "\n\n" ++ joinTexts ts

/-- Loop state of the element loop of `chunk_by_title`
(`chunks`, `current_texts`, `current_elements`, `current_char_count`,
`current_page` in the source). -/
structure ChunkState where
  chunks : List SimpleChunk
  current_texts : List String
  current_elements : List SimpleElement
  current_char_count : Nat
  current_page : Nat
deriving Repr

/-- One iteration of the `for element in elements` loop of
`chunk_by_title` (utils.py lines 200-243). -/
def chunkStep (max_characters new_after_n_chars combine_text_under_n_chars : Nat)
    (st : ChunkState) (element : SimpleElement) : ChunkState :=
  let element_text := element.text
  let element_len := element_text.length
  let current_page := element.metadata.page_number
  let is_title := element.element_type = "Title" ∨ element.element_type = "Header"
  let should_new_chunk :=
    (is_title ∧ combine_text_under_n_chars ≤ st.current_char_count) ∨
    (new_after_n_chars ≤ st.current_char_count) ∨
    (max_characters < st.current_char_count + element_len ∧ st.current_texts ≠ [])
  if should_new_chunk ∧ st.current_texts ≠ [] then
    { chunks := st.chunks ++
        [{ text := joinTexts st.current_texts,
           metadata := { page_number := current_page,
                         orig_elements := st.current_elements } }],
      current_texts := [element_text],
      current_elements := [element],
      current_char_count := element_len,
      current_page := current_page }
  else
    { chunks := st.chunks,
      current_texts := st.current_texts ++ [element_text],
      current_elements := st.current_elements ++ [element],
      current_char_count := st.current_char_count + element_len,
      current_page := current_page }

/-- The element loop of `chunk_by_title` followed by the final flush
(utils.py lines 194-252): the chunk list before the merge pass. -/
def loopChunks (elements : List SimpleElement)
    (max_characters new_after_n_chars combine_text_under_n_chars : Nat) :
    List SimpleChunk :=
  let st := elements.foldl
    (chunkStep max_characters new_after_n_chars combine_text_under_n_chars)
    { chunks := [], current_texts := [], current_elements := [],
      current_char_count := 0, current_page := 1 }
  if st.current_texts ≠ [] then
    st.chunks ++
      [{ text := joinTexts st.current_texts,
         metadata := { page_number := st.current_page,
                       orig_elements := st.current_elements } }]
  else
    st.chunks

/-- The merge of a small chunk with its following chunk
(utils.py lines 266-272): texts joined by a blank line, the first chunk's
page number kept, original-element lists concatenated. -/
def mergeTwo (c next : SimpleChunk) : SimpleChunk :=
  { text := c.text ++ "\n\n" ++ next.text,
    metadata := { page_number := c.metadata.page_number,
                  orig_elements :=
                    c.metadata.orig_elements ++ next.metadata.orig_elements } }

/-- The post-pass merge loop of `chunk_by_title` (utils.py lines 256-278):
while the chunk at hand is shorter than the combine threshold and merging it
with the next chunk stays within the hard maximum, merge greedily forward. -/
def mergePass (max_characters combine_text_under_n_chars : Nat) :
    List SimpleChunk → List SimpleChunk
  | [] => []
  | [c] => [c]
  | c :: next :: rest =>
    if c.text.length < combine_text_under_n_chars ∧
        c.text.length + next.text.length ≤ max_characters then
      mergePass max_characters combine_text_under_n_chars (mergeTwo c next :: rest)
    else
      c :: mergePass max_characters combine_text_under_n_chars (next :: rest)
termination_by l => l.length

/-- `chunk_by_title` of utils.py (lines 181-280): the element loop, the
final flush, and the merge pass (the merge pass runs only when more than one
chunk was produced). -/
def chunk_by_title (elements : List SimpleElement)
    (max_characters : Nat := 3000) (new_after_n_chars : Nat := 2400)
    (combine_text_under_n_chars : Nat := 500) : List SimpleChunk :=
  if elements = [] then []
  else
    let chunks := loopChunks elements max_characters new_after_n_chars
      combine_text_under_n_chars
    if 1 < chunks.length then
      mergePass max_characters combine_text_under_n_chars chunks
    else chunks

/-- Metadata of an element as `separate_content_types` reads it: optional
`text_as_html` (tables) and optional `image_base64` (images); `none` models
a missing attribute, which the source's `getattr`/`hasattr` guards detect. -/
structure RichMetadata where
  text_as_html : Option String := none
  image_base64 : Option String := none
deriving Repr, DecidableEq

/-- An element as `separate_content_types` and `analyze_elements` see it:
`class_name` models Python's `type(element).__name__`. -/
structure RichElement where
  class_name : String
  text : String
  metadata : RichMetadata := {}
deriving Repr, DecidableEq

/-- A chunk as `separate_content_types` reads it: its text and its
`metadata.orig_elements`. -/
structure RichChunk where
  text : String
  orig_elements : List RichElement
deriving Repr, DecidableEq

/-- The `content_data` dictionary returned by `separate_content_types`. -/
structure ContentData where
  text : String
  tables : List String
  images : List String
  types : List String
deriving Repr, DecidableEq

/-- One iteration of the `for element in chunk.metadata.orig_elements` loop
of `separate_content_types` (utils.py lines 333-352). -/
def contentStep (is_url_source : Bool) (acc : ContentData) (element : RichElement) :
    ContentData :=
  if element.class_name = "Table" then
    { acc with
      types := acc.types ++ ["table"],
      tables := acc.tables ++ [element.metadata.text_as_html.getD element.text] }
  else if element.class_name = "Image" ∧ is_url_source = false then
    match element.metadata.image_base64 with
    | some b => { acc with types := acc.types ++ ["image"], images := acc.images ++ [b] }
    | none => acc
  else acc

/-- `separate_content_types` of utils.py (lines 319-364).  The source's
final `list(set(types))` de-duplicates in unspecified order; it is modelled
by `List.dedup` and all statements about it only use the underlying set. -/
def separate_content_types (chunk : RichChunk) (source_type : String := "file") :
    ContentData :=
  let is_url_source := source_type == "url"
  let content_data : ContentData :=
    { text := chunk.text, tables := [], images := [], types := ["text"] }
  let content_data := chunk.orig_elements.foldl (contentStep is_url_source) content_data
  { content_data with types := content_data.types.dedup }

/-- A JSON-like value, modelling the Python objects a webhook payload is
parsed into. -/
inductive JValue where
  | null
  | jbool (b : Bool)
  | jnum (n : Int)
  | jstr (s : String)
  | jarr (items : List JValue)
  | jobj (fields : List (String × JValue))
deriving Repr

/-- Python `x == "lit"` for an arbitrary object `x`: true only when `x` is
that very string. -/
def JValue.eqStr : JValue → String → Bool
  | .jstr s, t => s == t
  | _, _ => false

/-- Python `x == "lit"` when `x` may be `None` (a missing key). -/
def optEqStr : Option JValue → String → Bool
  | some v, t => v.eqStr t
  | none, _ => false

/-- Python truthiness (`not x` is `!truthy x`): `None`, `False`, `0`, empty
string, empty list and empty dict are falsy. -/
def JValue.truthy : JValue → Bool
  | .null => false
  | .jbool b => b
  | .jnum n => n != 0
  | .jstr s => !s.isEmpty
  | .jarr items => !items.isEmpty
  | .jobj fields => !fields.isEmpty

/-- Python `dict.get(key)`: `none` when the key is absent (Python keys are
unique; the first matching entry is taken). -/
def jget (fields : List (String × JValue)) (key : String) : Option JValue :=
  (fields.find? (fun p => p.1 == key)).map (fun p => p.2)

/-- Result of the `create_user` webhook handler of `userRoutes.py`:
either an `HTTPException` (status, detail) or one of the three 200
responses the handler returns. -/
inductive CreateUserResult where
  | httpError (status : Nat) (detail : String)
  | ignored (event_type : Option JValue)
  | alreadyExists (clerk_id : String)
  | created (clerk_id : String)
deriving Repr

/-- `create_user` of `userRoutes.py` (lines 11-90) over a datastore modelled
as the list of existing `clerk_id`s; returns the response together with the
resulting datastore.  The `supabase` insert is modelled as always returning
the inserted row, so the 500 no-data branch does not arise. -/
def create_user (clerk_webhook_data : JValue) (db : List String) :
    CreateUserResult × List String :=
  match clerk_webhook_data with
  | .jobj fields =>
    let event_type := jget fields "type"
    if optEqStr event_type "user.created" = false then
      (.ignored event_type, db)
    else
      match jget fields "data" with
      | none => (.httpError 400 "Missing or invalid user data in webhook payload", db)
      | some user_data =>
        if user_data.truthy = false then
          (.httpError 400 "Missing or invalid user data in webhook payload", db)
        else
          match user_data with
          | .jobj data_fields =>
            match jget data_fields "id" with
            | some (.jstr clerk_id) =>
              if clerk_id = "" then
                (.httpError 400 "Missing or invalid clerk_id in user data", db)
              else if db.contains clerk_id then
                (.alreadyExists clerk_id, db)
              else
                (.created clerk_id, db ++ [clerk_id])
            | _ => (.httpError 400 "Missing or invalid clerk_id in user data", db)
          | _ => (.httpError 400 "Missing or invalid user data in webhook payload", db)
  | _ => (.httpError 400 "Invalid webhook payload format", db)

/-- An HTTP response as the logging middleware sees it. -/
structure HttpResponse where
  status_code : Nat
  headers : List (String × String)
deriving Repr, DecidableEq

/-- `response.headers[k] = v`: replace any existing entry for `k`. -/
def setHeader (headers : List (String × String)) (k v : String) :
    List (String × String) :=
  headers.filter (fun p => p.1 ≠ k) ++ [(k, v)]

/-- Header lookup. -/
def getHeader (headers : List (String × String)) (k : String) : Option String :=
  (headers.find? (fun p => p.1 == k)).map (fun p => p.2)

/-- `LoggingMiddleware.dispatch` of `logging_middleware.py` (lines 19-35),
with the generated correlation id and the outcome of `call_next` as inputs:
on a returned response the `X-Request-ID` header is attached; on an
exception from the downstream handler the exception is re-raised unchanged
(the `finally` block only clears logging context). -/
def dispatch (request_id : String) (call_next : Except String HttpResponse) :
    Except String HttpResponse :=
  match call_next with
  | .ok response =>
    .ok { response with headers := setHeader response.headers "X-Request-ID" request_id }
  | .error e => .error e

/-- The dictionary `process_document` returns to its caller in
`celery.py` (document id and chunk count). -/
structure ProcessDocumentResult where
  document_id : String
  chunks_created : Nat
deriving Repr, DecidableEq

/-- `perform_rag_ingestion_task` of `celery.py` (lines 50-63), parameterised
by the behaviour of the (out-of-excerpt) orchestrator `process_document`,
modelled as returning either a result or a raised error message.  The task
catches every error and returns a failure string instead of re-raising. -/
def perform_rag_ingestion_task
    (process_document : String → Except String ProcessDocumentResult)
    (document_id : String) : String :=
  match process_document document_id with
  | .ok r => "Document " ++ r.document_id ++ " processed successfully"
  | .error e => "Failed to process document " ++ document_id ++ ": " ++ e

/-! ### Helper lemmas -/

theorem getHeader_setHeader (headers : List (String × String)) (k v : String) :
    getHeader (setHeader headers k v) k = some v := by
  induction headers with
  | nil => simp [setHeader, getHeader]
  | cons p t ih =>
    by_cases hk : p.1 = k
    · simpa [setHeader, hk, -ne_eq, Ne] using ih
    · simp only [setHeader, getHeader, List.find?] at ih ⊢
      simp [hk, ih]

/-! ### C2 -/

/-- C2 counterexample: the payload `{"type": "user.created", "data": {}}` is
rejected by the step-3 check (detail "Missing or invalid user data in webhook
payload"), not by the step-4 clerk_id check, because an empty mapping is
falsy in Python. -/
theorem create_user_empty_data_not_step4 :
    (create_user (.jobj [("type", .jstr "user.created"), ("data", .jobj [])]) []).1 =
      .httpError 400 "Missing or invalid user data in webhook payload" ∧
    "Missing or invalid user data in webhook payload" ≠
      "Missing or invalid clerk_id in user data" := by
  exact ⟨rfl, by decide⟩

/-- C2 (amended): for every datastore, the payload
`{"type": "user.created", "data": {}}` fails with HTTP 400 and the step-3
detail "Missing or invalid user data in webhook payload": the `data` field is
present and a mapping, but empty, and `not user_data` is true for an empty
dict, so the step-3 check fires before the clerk_id check is reached. -/
theorem create_user_empty_data_step3 (db : List String) :
    create_user (.jobj [("type", .jstr "user.created"), ("data", .jobj [])]) db =
      (.httpError 400 "Missing or invalid user data in webhook payload", db) := rfl

/-! ### C4 -/

/-- C4: `perform_rag_ingestion_task` never re-raises: when the orchestrator
`process_document` fails with some error, the task returns the string
`"Failed to process document {id}: {error}"` carrying the original error
text; when it succeeds (reporting the same document id), the task returns
`"Document {id} processed successfully"`. -/
theorem perform_rag_ingestion_task_spec
    (process_document : String → Except String ProcessDocumentResult)
    (document_id err : String) (r : ProcessDocumentResult) :
    (process_document document_id = .error err →
      perform_rag_ingestion_task process_document document_id =
        "Failed to process document " ++ document_id ++ ": " ++ err) ∧
    (process_document document_id = .ok r → r.document_id = document_id →
      perform_rag_ingestion_task process_document document_id =
        "Document " ++ document_id ++ " processed successfully") := by
  refine ⟨fun h => ?_, fun h hid => ?_⟩
  · simp [perform_rag_ingestion_task, h]
  · simp [perform_rag_ingestion_task, h, hid]

/-- Witness for C4 at a concrete failing orchestrator. -/
theorem perform_rag_ingestion_task_spec_witness :
    perform_rag_ingestion_task (fun _ => .error "boom") "doc1" =
      "Failed to process document " ++ "doc1" ++ ": " ++ "boom" :=
  (perform_rag_ingestion_task_spec (fun _ => .error "boom") "doc1" "boom"
    { document_id := "doc1", chunks_created := 0 }).1 rfl

/-! ### C6 -/

/-- C6 counterexample: when the downstream handler raises, the middleware
produces no response at all (it re-raises), so no response carrying the
`X-Request-ID` header exists for that request. -/
theorem dispatch_failure_no_header :
    ¬ ∃ out, dispatch "rid" (.error "boom") = .ok out ∧
      getHeader out.headers "X-Request-ID" = some "rid" := by
  rintro ⟨out, h, _⟩
  simp [dispatch] at h

/-- C6 (amended): the middleware attaches `X-Request-ID` (set to the
generated correlation id) only to responses returned by `call_next` — which
includes every normally completed request; when the downstream handler
raises, the exception is re-raised unchanged and no header is attached. -/
theorem dispatch_header_spec (request_id e : String) (response : HttpResponse) :
    (∃ out, dispatch request_id (.ok response) = .ok out ∧
      getHeader out.headers "X-Request-ID" = some request_id) ∧
    dispatch request_id (.error e) = .error e := by
  refine ⟨⟨_, rfl, ?_⟩, rfl⟩
  exact getHeader_setHeader response.headers "X-Request-ID" request_id

/-! ### C7 -/

/-- C7: for every `user.created` payload carrying a non-empty string id `s`,
if `s` is already in the datastore then `create_user` answers
"already exists" and leaves the datastore unchanged; if `s` is new, the
first call inserts it and a second identical call answers "already exists"
without inserting again — so posting the same payload twice creates at most
one record. -/
theorem create_user_idempotent
    (fields data_fields : List (String × JValue)) (db : List String) (s : String)
    (htype : jget fields "type" = some (.jstr "user.created"))
    (hdata : jget fields "data" = some (.jobj data_fields))
    (hid : jget data_fields "id" = some (.jstr s))
    (hs : s ≠ "") :
    (s ∈ db → create_user (.jobj fields) db = (.alreadyExists s, db)) ∧
    (s ∉ db →
      create_user (.jobj fields) db = (.created s, db ++ [s]) ∧
      create_user (.jobj fields) (db ++ [s]) = (.alreadyExists s, db ++ [s])) := by
  have hne : data_fields ≠ [] := by
    intro h
    rw [h] at hid
    simp [jget] at hid
  have htr : (JValue.jobj data_fields).truthy = true := by
    simp [JValue.truthy, hne]
  refine ⟨fun hmem => ?_, fun hmem => ⟨?_, ?_⟩⟩
  · simp [create_user, htype, hdata, hid, htr, optEqStr, JValue.eqStr, hs,
      List.elem_iff, hmem]
  · simp [create_user, htype, hdata, hid, htr, optEqStr, JValue.eqStr, hs,
      List.elem_iff, hmem]
  · simp [create_user, htype, hdata, hid, htr, optEqStr, JValue.eqStr, hs,
      List.elem_iff]

/-- Witness for C7: the fixed payload with `clerk_id` `"user_abc123"`
against a datastore already holding it. -/
theorem create_user_idempotent_witness :
    create_user
      (.jobj [("type", .jstr "user.created"),
              ("data", .jobj [("id", .jstr "user_abc123")])])
      ["user_abc123"] =
      (.alreadyExists "user_abc123", ["user_abc123"]) :=
  (create_user_idempotent [("type", .jstr "user.created"),
      ("data", .jobj [("id", .jstr "user_abc123")])]
    [("id", .jstr "user_abc123")] ["user_abc123"] "user_abc123"
    rfl rfl rfl (by decide)).1 (by simp)

/-! ### C8 -/

/-- C8: the merge pass is a no-op (hence idempotent on its own output) on
any chunk list in which every adjacent pair either starts with a chunk whose
text already meets the combine threshold (500) or would exceed the hard
maximum (3000) if merged. -/
theorem mergePass_no_merge_fixed (l : List SimpleChunk)
    (h : List.Chain'
      (fun a b => 500 ≤ a.text.length ∨ 3000 < a.text.length + b.text.length) l) :
    mergePass 3000 500 l = l := by
  induction l with
  | nil => simp [mergePass]
  | cons c tail ih =>
    cases tail with
    | nil => simp [mergePass]
    | cons next rest =>
      rw [List.chain'_cons] at h
      have hcond : ¬ (c.text.length < 500 ∧
          c.text.length + next.text.length ≤ 3000) := by
        rcases h.1 with h1 | h1 <;> omega
      rw [mergePass, if_neg hcond, ih h.2]

/-- Witness for C8 at a concrete already-merged two-chunk list: the
adjacent pair satisfies the no-merge condition because the first chunk's
text already has 500 characters, meeting the combine threshold. -/
theorem mergePass_no_merge_fixed_witness :
    mergePass 3000 500
      [{ text := String.mk (List.replicate 500 'a') }, { text := "b" }] =
      [{ text := String.mk (List.replicate 500 'a') }, { text := "b" }] :=
  mergePass_no_merge_fixed
    [{ text := String.mk (List.replicate 500 'a') }, { text := "b" }]
    (by
      rw [List.chain'_cons]
      refine ⟨Or.inl ?_, List.chain'_singleton _⟩
      show 500 ≤ (List.replicate 500 'a').length
      rw [List.length_replicate])

/-! ### C10 -/

theorem mergePass_head_page (maxc comb : Nat) (l : List SimpleChunk) :
    ∀ c, ((mergePass maxc comb (c :: l)).head?).map
        (fun x => x.metadata.page_number) = some c.metadata.page_number := by
  induction l with
  | nil => intro c; simp [mergePass]
  | cons next rest ih =>
    intro c
    by_cases h : c.text.length < comb ∧ c.text.length + next.text.length ≤ maxc
    · rw [mergePass, if_pos h]
      exact ih (mergeTwo c next)
    · rw [mergePass, if_neg h]
      simp

/-- C10: when the merge pass combines a small chunk with following chunks,
the combination keeps the earliest chunk's `page_number` (the absorbed
chunk's page number is discarded), and the resulting first output chunk
still carries the earliest chunk's page number however many further merges
happen. -/
theorem mergePass_keeps_first_page (maxc comb : Nat) (c next : SimpleChunk)
    (rest : List SimpleChunk)
    (hsmall : c.text.length < comb)
    (hfit : c.text.length + next.text.length ≤ maxc) :
    mergePass maxc comb (c :: next :: rest) =
      mergePass maxc comb (mergeTwo c next :: rest) ∧
    (mergeTwo c next).metadata.page_number = c.metadata.page_number ∧
    ((mergePass maxc comb (c :: next :: rest)).head?).map
        (fun x => x.metadata.page_number) = some c.metadata.page_number := by
  refine ⟨by rw [mergePass, if_pos ⟨hsmall, hfit⟩], rfl, ?_⟩
  exact mergePass_head_page maxc comb (next :: rest) c

/-- Witness for C10 at a concrete pair of small chunks on pages 3 and 7. -/
theorem mergePass_keeps_first_page_witness :
    mergePass 10 5 [{ text := "ab", metadata := { page_number := 3 } },
        { text := "cd", metadata := { page_number := 7 } }] =
      mergePass 10 5 [mergeTwo { text := "ab", metadata := { page_number := 3 } }
        { text := "cd", metadata := { page_number := 7 } }] ∧
    (mergeTwo { text := "ab", metadata := { page_number := 3 } }
        { text := "cd", metadata := { page_number := 7 } }).metadata.page_number = 3 ∧
    ((mergePass 10 5 [{ text := "ab", metadata := { page_number := 3 } },
        { text := "cd", metadata := { page_number := 7 } }]).head?).map
      (fun x => x.metadata.page_number) = some 3 :=
  mergePass_keeps_first_page 10 5
    { text := "ab", metadata := { page_number := 3 } }
    { text := "cd", metadata := { page_number := 7 } } [] (by decide) (by decide)

/-! ### C5 -/

theorem contentFold_tables (u : Bool) (es : List RichElement) (acc : ContentData) :
    (es.foldl (contentStep u) acc).tables =
      acc.tables ++ (es.filter (fun e => e.class_name = "Table")).map
        (fun e => e.metadata.text_as_html.getD e.text) := by
  induction es generalizing acc with
  | nil => simp
  | cons e t ih =>
    by_cases h : e.class_name = "Table"
    · simp [ih, contentStep, h, List.filter_cons]
    · by_cases h2 : e.class_name = "Image" ∧ u = false
      · obtain ⟨h2a, h2b⟩ := h2
        subst h2b
        cases hb : e.metadata.image_base64 <;>
          simp [ih, contentStep, h, h2a, hb, List.filter_cons]
      · simp [ih, contentStep, h, h2, List.filter_cons]

theorem contentFold_images (u : Bool) (es : List RichElement) (acc : ContentData)
    (h : ∀ e ∈ es, e.class_name ≠ "Image") :
    (es.foldl (contentStep u) acc).images = acc.images := by
  induction es generalizing acc with
  | nil => simp
  | cons e t ih =>
    have he : e.class_name ≠ "Image" := h e (by simp)
    have ht : ∀ x ∈ t, x.class_name ≠ "Image" := fun x hx => h x (by simp [hx])
    by_cases hT : e.class_name = "Table" <;> simp [ih _ ht, contentStep, hT, he]

theorem contentFold_types (u : Bool) (es : List RichElement) (acc : ContentData)
    (h : ∀ e ∈ es, e.class_name ≠ "Image") :
    (es.foldl (contentStep u) acc).types =
      acc.types ++ (es.filter (fun e => e.class_name = "Table")).map
        (fun _ => "table") := by
  induction es generalizing acc with
  | nil => simp
  | cons e t ih =>
    have he : e.class_name ≠ "Image" := h e (by simp)
    have ht : ∀ x ∈ t, x.class_name ≠ "Image" := fun x hx => h x (by simp [hx])
    by_cases hT : e.class_name = "Table" <;>
      simp [ih _ ht, contentStep, hT, he, List.filter_cons]

/-- C5: a chunk (file source) whose retained original elements hold exactly
one `Table`-typed element and no `Image`-typed element is classified with
the de-duplicated type set {"text", "table"}, a one-entry tables list
holding that element's HTML representation (the precomputed `text_as_html`
when present, else the element's raw text), and an empty images list. -/
theorem separate_content_types_one_table (chunk : RichChunk)
    (h1 : (chunk.orig_elements.filter (fun e => e.class_name = "Table")).length = 1)
    (h2 : ∀ e ∈ chunk.orig_elements, e.class_name ≠ "Image") :
    (separate_content_types chunk "file").types.toFinset = {"text", "table"} ∧
    (separate_content_types chunk "file").tables =
      (chunk.orig_elements.filter (fun e => e.class_name = "Table")).map
        (fun e => e.metadata.text_as_html.getD e.text) ∧
    (separate_content_types chunk "file").tables.length = 1 ∧
    (separate_content_types chunk "file").images = [] := by
  obtain ⟨tb, htb⟩ := List.length_eq_one.mp h1
  refine ⟨?_, ?_, ?_, ?_⟩
  · ext x
    simp [separate_content_types, contentFold_types false chunk.orig_elements _ h2, htb]
  · simp [separate_content_types, contentFold_tables false chunk.orig_elements]
  · simp [separate_content_types, contentFold_tables false chunk.orig_elements, h1]
  · simp [separate_content_types, contentFold_images false chunk.orig_elements _ h2]

/-- Witness for C5 at a concrete chunk holding one text element and one
table element with a precomputed HTML form. -/
theorem separate_content_types_one_table_witness :
    (separate_content_types
      { text := "hello",
        orig_elements := [{ class_name := "NarrativeText", text := "hello" },
          { class_name := "Table", text := "rawtab",
            metadata := { text_as_html := some "<table>x</table>" } }] }
      "file").types.toFinset = {"text", "table"} ∧
    (separate_content_types
      { text := "hello",
        orig_elements := [{ class_name := "NarrativeText", text := "hello" },
          { class_name := "Table", text := "rawtab",
            metadata := { text_as_html := some "<table>x</table>" } }] }
      "file").tables =
      (List.filter (fun e => e.class_name = "Table")
        [({ class_name := "NarrativeText", text := "hello" } : RichElement),
          { class_name := "Table", text := "rawtab",
            metadata := { text_as_html := some "<table>x</table>" } }]).map
        (fun e => e.metadata.text_as_html.getD e.text) ∧
    (separate_content_types
      { text := "hello",
        orig_elements := [{ class_name := "NarrativeText", text := "hello" },
          { class_name := "Table", text := "rawtab",
            metadata := { text_as_html := some "<table>x</table>" } }] }
      "file").tables.length = 1 ∧
    (separate_content_types
      { text := "hello",
        orig_elements := [{ class_name := "NarrativeText", text := "hello" },
          { class_name := "Table", text := "rawtab",
            metadata := { text_as_html := some "<table>x</table>" } }] }
      "file").images = [] :=
  separate_content_types_one_table
    { text := "hello",
      orig_elements := [{ class_name := "NarrativeText", text := "hello" },
        { class_name := "Table", text := "rawtab",
          metadata := { text_as_html := some "<table>x</table>" } }] }
    (by decide) (by decide)

/-! ### Chunking loop invariant (used by C1, C3, C9) -/

/-- Total length of the element texts of a list of elements. -/
def sumLens (es : List SimpleElement) : Nat :=
  (es.map (fun e => e.text.length)).sum

/-- Relation between two consecutive produced chunks: the first one's page
number is the page number of the first element of the second one. -/
def chunkRel (a b : SimpleChunk) : Prop :=
  ∃ e, b.metadata.orig_elements.head? = some e ∧
    a.metadata.page_number = e.metadata.page_number

/-- Invariant of the element loop of `chunk_by_title` after having
processed the prefix `processed` of the input. -/
structure LoopInv (maxc : Nat) (processed : List SimpleElement)
    (st : ChunkState) : Prop where
  texts_eq : st.current_texts = st.current_elements.map (fun e => e.text)
  count_eq : st.current_char_count = sumLens st.current_elements
  origs_concat : ((st.chunks.map (fun c => c.metadata.orig_elements)).flatten)
      ++ st.current_elements = processed
  chunk_text : ∀ c ∈ st.chunks,
      c.text = joinTexts (c.metadata.orig_elements.map (fun e => e.text))
  chunk_ne : ∀ c ∈ st.chunks, c.metadata.orig_elements ≠ []
  chunk_sum : (∀ e ∈ processed, e.text.length ≤ maxc) →
      ∀ c ∈ st.chunks, sumLens c.metadata.orig_elements ≤ maxc
  count_le : (∀ e ∈ processed, e.text.length ≤ maxc) →
      st.current_char_count ≤ maxc
  chunks_cur : st.chunks ≠ [] → st.current_elements ≠ []
  cur_ne : processed ≠ [] → st.current_elements ≠ []
  chain : List.Chain' chunkRel st.chunks
  last_head : ∀ c, st.chunks.getLast? = some c →
      ∃ e, st.current_elements.head? = some e ∧
        c.metadata.page_number = e.metadata.page_number
  page_last : ∀ e, st.current_elements.getLast? = some e →
      st.current_page = e.metadata.page_number

theorem sumLens_nil : sumLens [] = 0 := rfl

theorem sumLens_append (es fs : List SimpleElement) :
    sumLens (es ++ fs) = sumLens es + sumLens fs := by
  simp [sumLens]

theorem sumLens_singleton (e : SimpleElement) : sumLens [e] = e.text.length := by
  simp [sumLens]

/-- The flush branch of `chunkStep`, as an equation. -/
theorem chunkStep_pos (maxc n comb : Nat) (st : ChunkState) (el : SimpleElement)
    (H : (((el.element_type = "Title" ∨ el.element_type = "Header") ∧
            comb ≤ st.current_char_count) ∨
          n ≤ st.current_char_count ∨
          (maxc < st.current_char_count + el.text.length ∧
            st.current_texts ≠ [])) ∧
         st.current_texts ≠ []) :
    chunkStep maxc n comb st el =
      { chunks := st.chunks ++
          [{ text := joinTexts st.current_texts,
             metadata := { page_number := el.metadata.page_number,
                           orig_elements := st.current_elements } }],
        current_texts := [el.text],
        current_elements := [el],
        current_char_count := el.text.length,
        current_page := el.metadata.page_number } := by
  simp only [chunkStep]
  rw [if_pos H]

/-- The accumulate branch of `chunkStep`, as an equation. -/
theorem chunkStep_neg (maxc n comb : Nat) (st : ChunkState) (el : SimpleElement)
    (H : ¬ ((((el.element_type = "Title" ∨ el.element_type = "Header") ∧
            comb ≤ st.current_char_count) ∨
          n ≤ st.current_char_count ∨
          (maxc < st.current_char_count + el.text.length ∧
            st.current_texts ≠ [])) ∧
         st.current_texts ≠ [])) :
    chunkStep maxc n comb st el =
      { chunks := st.chunks,
        current_texts := st.current_texts ++ [el.text],
        current_elements := st.current_elements ++ [el],
        current_char_count := st.current_char_count + el.text.length,
        current_page := el.metadata.page_number } := by
  simp only [chunkStep]
  rw [if_neg H]

theorem loopInv_init (maxc : Nat) :
    LoopInv maxc []
      { chunks := [], current_texts := [], current_elements := [],
        current_char_count := 0, current_page := 1 } := by
  constructor <;> simp [sumLens]

theorem chunkStep_inv (maxc n comb : Nat) (processed : List SimpleElement)
    (st : ChunkState) (el : SimpleElement)
    (inv : LoopInv maxc processed st) :
    LoopInv maxc (processed ++ [el]) (chunkStep maxc n comb st el) := by
  by_cases H : (((el.element_type = "Title" ∨ el.element_type = "Header") ∧
        comb ≤ st.current_char_count) ∨
      n ≤ st.current_char_count ∨
      (maxc < st.current_char_count + el.text.length ∧
        st.current_texts ≠ [])) ∧
      st.current_texts ≠ []
  · rw [chunkStep_pos maxc n comb st el H]
    obtain ⟨Hs, Hne⟩ := H
    have hcurne : st.current_elements ≠ [] := by
      intro h
      apply Hne
      rw [inv.texts_eq, h]
      rfl
    constructor
    · rfl
    · simp [sumLens]
    · simp only [List.map_append, List.map_cons, List.map_nil,
        List.flatten_append, List.flatten_cons, List.flatten_nil,
        List.append_nil]
      rw [inv.origs_concat]
    · intro c hc
      rcases List.mem_append.mp hc with h | h
      · exact inv.chunk_text c h
      · simp only [List.mem_singleton] at h
        subst h
        rw [inv.texts_eq]
    · intro c hc
      rcases List.mem_append.mp hc with h | h
      · exact inv.chunk_ne c h
      · simp only [List.mem_singleton] at h
        subst h
        exact hcurne
    · intro hall c hc
      have hall' : ∀ e ∈ processed, e.text.length ≤ maxc :=
        fun e he => hall e (by simp [he])
      rcases List.mem_append.mp hc with h | h
      · exact inv.chunk_sum hall' c h
      · simp only [List.mem_singleton] at h
        subst h
        have := inv.count_le hall'
        rw [inv.count_eq] at this
        exact this
    · intro hall
      exact hall el (by simp)
    · intro _
      simp
    · intro _
      simp
    · rw [List.chain'_append]
      refine ⟨inv.chain, List.chain'_singleton _, ?_⟩
      intro x hx y hy
      simp only [List.head?_cons, Option.mem_def, Option.some.injEq] at hy
      subst hy
      obtain ⟨e, he1, he2⟩ := inv.last_head x hx
      exact ⟨e, he1, he2⟩
    · intro c hc
      rw [List.getLast?_concat] at hc
      injection hc with hc
      subst hc
      exact ⟨el, rfl, rfl⟩
    · intro e he
      simp only [List.getLast?_singleton, Option.some.injEq] at he
      subst he
      rfl
  · rw [chunkStep_neg maxc n comb st el H]
    constructor
    · rw [inv.texts_eq]
      simp
    · rw [inv.count_eq, sumLens_append, sumLens_singleton]
    · rw [← List.append_assoc, inv.origs_concat]
    · exact inv.chunk_text
    · exact inv.chunk_ne
    · intro hall
      exact inv.chunk_sum fun e he => hall e (by simp [he])
    · intro hall
      show st.current_char_count + el.text.length ≤ maxc
      have hel : el.text.length ≤ maxc := hall el (by simp)
      by_cases hT : st.current_texts = []
      · have hes : st.current_elements = [] :=
          List.map_eq_nil_iff.mp (inv.texts_eq ▸ hT)
        have : st.current_char_count = 0 := by
          rw [inv.count_eq, hes, sumLens_nil]
        omega
      · have h3 : ¬ (maxc < st.current_char_count + el.text.length ∧
            st.current_texts ≠ []) :=
          fun hcontra => H ⟨Or.inr (Or.inr hcontra), hcontra.2⟩
        rcases Nat.lt_or_ge maxc (st.current_char_count + el.text.length) with hlt | hge
        · exact absurd ⟨hlt, hT⟩ h3
        · exact hge
    · intro _
      simp
    · intro _
      simp
    · exact inv.chain
    · intro c hc
      have hchne : st.chunks ≠ [] := by
        intro h
        rw [h] at hc
        simp at hc
      have hesne : st.current_elements ≠ [] := inv.chunks_cur hchne
      obtain ⟨e, he1, he2⟩ := inv.last_head c hc
      refine ⟨e, ?_, he2⟩
      cases hes : st.current_elements with
      | nil => exact absurd hes hesne
      | cons e0 es0 =>
        rw [hes] at he1
        simpa using he1
    · intro e he
      rw [List.getLast?_concat] at he
      injection he with he
      subst he
      rfl

theorem foldl_chunkStep_inv (maxc n comb : Nat) (elements : List SimpleElement) :
    ∀ (processed : List SimpleElement) (st : ChunkState),
      LoopInv maxc processed st →
      LoopInv maxc (processed ++ elements)
        (elements.foldl (chunkStep maxc n comb) st) := by
  induction elements with
  | nil =>
    intro p st h
    simpa using h
  | cons el t ih =>
    intro p st h
    have h2 := ih (p ++ [el]) _ (chunkStep_inv maxc n comb p st el h)
    simpa using h2

/-- Everything the later claims need about the pre-merge chunk list. -/
theorem loopChunks_spec (elements : List SimpleElement) (maxc n comb : Nat) :
    ((loopChunks elements maxc n comb).map
        (fun c => c.metadata.orig_elements)).flatten = elements ∧
    (∀ c ∈ loopChunks elements maxc n comb,
      c.text = joinTexts (c.metadata.orig_elements.map (fun e => e.text)) ∧
      c.metadata.orig_elements ≠ []) ∧
    ((∀ e ∈ elements, e.text.length ≤ maxc) →
      ∀ c ∈ loopChunks elements maxc n comb,
        sumLens c.metadata.orig_elements ≤ maxc) ∧
    List.Chain' chunkRel (loopChunks elements maxc n comb) ∧
    (∀ c, (loopChunks elements maxc n comb).getLast? = some c →
      ∃ e, c.metadata.orig_elements.getLast? = some e ∧
        c.metadata.page_number = e.metadata.page_number) := by
  have inv : LoopInv maxc elements
      (elements.foldl (chunkStep maxc n comb)
        { chunks := [], current_texts := [], current_elements := [],
          current_char_count := 0, current_page := 1 }) := by
    have := foldl_chunkStep_inv maxc n comb elements [] _ (loopInv_init maxc)
    simpa using this
  set st := elements.foldl (chunkStep maxc n comb)
    { chunks := [], current_texts := [], current_elements := [],
      current_char_count := 0, current_page := 1 } with hst
  by_cases he : elements = []
  · subst he
    have hnil : loopChunks [] maxc n comb = [] := rfl
    simp [hnil]
  · have hcur : st.current_elements ≠ [] := inv.cur_ne he
    have htexts : st.current_texts ≠ [] := by
      rw [inv.texts_eq]
      simpa [List.map_eq_nil_iff] using hcur
    have hlc : loopChunks elements maxc n comb = st.chunks ++
        [{ text := joinTexts st.current_texts,
           metadata := { page_number := st.current_page,
                         orig_elements := st.current_elements } }] := by
      rw [loopChunks, ← hst, if_pos htexts]
    rw [hlc]
    refine ⟨?_, ?_, ?_, ?_, ?_⟩
    · simp only [List.map_append, List.map_cons, List.map_nil,
        List.flatten_append, List.flatten_cons, List.flatten_nil,
        List.append_nil]
      exact inv.origs_concat
    · intro c hc
      rcases List.mem_append.mp hc with h | h
      · exact ⟨inv.chunk_text c h, inv.chunk_ne c h⟩
      · simp only [List.mem_singleton] at h
        subst h
        exact ⟨by rw [inv.texts_eq], hcur⟩
    · intro hall c hc
      rcases List.mem_append.mp hc with h | h
      · exact inv.chunk_sum hall c h
      · simp only [List.mem_singleton] at h
        subst h
        have := inv.count_le hall
        rw [inv.count_eq] at this
        exact this
    · rw [List.chain'_append]
      refine ⟨inv.chain, List.chain'_singleton _, ?_⟩
      intro x hx y hy
      simp only [List.head?_cons, Option.mem_def, Option.some.injEq] at hy
      subst hy
      exact inv.last_head x hx
    · intro c hc
      rw [List.getLast?_concat] at hc
      injection hc with hc
      subst hc
      cases hes : st.current_elements with
      | nil => exact absurd hes hcur
      | cons e0 es0 =>
        have hlast : st.current_elements.getLast? =
            some (List.getLast (e0 :: es0) (by simp)) := by
          rw [hes]
          exact List.getLast?_eq_getLast _ _
        refine ⟨List.getLast (e0 :: es0) (by simp), by simpa [hes] using hlast, ?_⟩
        exact inv.page_last _ hlast

theorem joinTexts_append (xs ys : List String) (hx : xs ≠ []) (hy : ys ≠ []) :
    joinTexts (xs ++ ys) = joinTexts xs ++ "\n\n" ++ joinTexts ys := by
  induction xs with
  | nil => exact absurd rfl hx
  | cons x xs ih =>
    cases xs with
    | nil =>
      cases ys with
      | nil => exact absurd rfl hy
      | cons y ys2 => simp [joinTexts]
    | cons x2 xs2 =>
      calc joinTexts ((x :: x2 :: xs2) ++ ys)
          = x ++ "\n\n" ++ joinTexts ((x2 :: xs2) ++ ys) := rfl
        _ = x ++ "\n\n" ++ (joinTexts (x2 :: xs2) ++ "\n\n" ++ joinTexts ys) := by
            rw [ih (List.cons_ne_nil x2 xs2)]
        _ = joinTexts (x :: x2 :: xs2) ++ "\n\n" ++ joinTexts ys := by
            have hstep : joinTexts (x :: x2 :: xs2) =
                x ++ "\n\n" ++ joinTexts (x2 :: xs2) := rfl
            rw [hstep]
            simp [String.append_assoc]

theorem length_joinTexts (ts : List String) (h : ts ≠ []) :
    (joinTexts ts).length = (ts.map String.length).sum + 2 * (ts.length - 1) := by
  induction ts with
  | nil => exact absurd rfl h
  | cons t ts ih =>
    cases ts with
    | nil => simp [joinTexts]
    | cons t2 ts2 =>
      have hstep : joinTexts (t :: t2 :: ts2) =
          t ++ "\n\n" ++ joinTexts (t2 :: ts2) := rfl
      rw [hstep, String.length_append, String.length_append,
        ih (List.cons_ne_nil t2 ts2)]
      have h2 : ("\n\n" : String).length = 2 := rfl
      simp only [h2, List.map_cons, List.sum_cons, List.length_cons]
      omega

/-- The properties of produced chunks that survive the merge pass and give
the size bound: nonempty constituents, text equal to the blank-line join of
the constituent texts, and constituent text lengths summing within the hard
maximum. -/
def GoodChunk (maxc : Nat) (c : SimpleChunk) : Prop :=
  c.metadata.orig_elements ≠ [] ∧
  c.text = joinTexts (c.metadata.orig_elements.map (fun e => e.text)) ∧
  sumLens c.metadata.orig_elements ≤ maxc

theorem good_text_length {maxc : Nat} {c : SimpleChunk} (h : GoodChunk maxc c) :
    c.text.length =
      sumLens c.metadata.orig_elements +
        2 * (c.metadata.orig_elements.length - 1) := by
  rw [h.2.1, length_joinTexts _ (by simpa [List.map_eq_nil_iff] using h.1)]
  simp [sumLens, List.map_map, Function.comp_def]

theorem mergeTwo_good {maxc : Nat} {c next : SimpleChunk}
    (hc : GoodChunk maxc c) (hnext : GoodChunk maxc next)
    (hfit : c.text.length + next.text.length ≤ maxc) :
    GoodChunk maxc (mergeTwo c next) := by
  refine ⟨by simp [mergeTwo, hc.1], ?_, ?_⟩
  · show c.text ++ "\n\n" ++ next.text = _
    rw [hc.2.1, hnext.2.1]
    simp only [mergeTwo, List.map_append]
    rw [joinTexts_append] <;>
      simp [List.map_eq_nil_iff, hc.1, hnext.1]
  · show sumLens (c.metadata.orig_elements ++ next.metadata.orig_elements) ≤ maxc
    rw [sumLens_append]
    have e1 := good_text_length hc
    have e2 := good_text_length hnext
    omega

theorem mergePass_good (maxc comb : Nat) (l : List SimpleChunk) :
    ∀ c, GoodChunk maxc c → (∀ x ∈ l, GoodChunk maxc x) →
      ∀ x ∈ mergePass maxc comb (c :: l), GoodChunk maxc x := by
  induction l with
  | nil =>
    intro c hc _ x hx
    rw [mergePass] at hx
    simp only [List.mem_singleton] at hx
    subst hx
    exact hc
  | cons next rest ih =>
    intro c hc hl x hx
    by_cases h : c.text.length < comb ∧ c.text.length + next.text.length ≤ maxc
    · rw [mergePass, if_pos h] at hx
      exact ih (mergeTwo c next) (mergeTwo_good hc (hl next (by simp)) h.2)
        (fun y hy => hl y (by simp [hy])) x hx
    · rw [mergePass, if_neg h] at hx
      rcases List.mem_cons.mp hx with hx1 | hx2
      · subst hx1
        exact hc
      · exact ih next (hl next (by simp)) (fun y hy => hl y (by simp [hy])) x hx2

theorem mergePass_flatten (maxc comb : Nat) (l : List SimpleChunk) :
    ∀ c, ((mergePass maxc comb (c :: l)).map
        (fun x => x.metadata.orig_elements)).flatten =
      (((c :: l)).map (fun x => x.metadata.orig_elements)).flatten := by
  induction l with
  | nil =>
    intro c
    rw [mergePass]
  | cons next rest ih =>
    intro c
    by_cases h : c.text.length < comb ∧ c.text.length + next.text.length ≤ maxc
    · rw [mergePass, if_pos h, ih (mergeTwo c next)]
      simp [mergeTwo]
    · rw [mergePass, if_neg h]
      simp only [List.map_cons, List.flatten_cons]
      rw [ih next]
      simp

theorem chunk_by_title_good (elements : List SimpleElement) (maxc n comb : Nat)
    (h : ∀ e ∈ elements, e.text.length ≤ maxc) :
    ∀ c ∈ chunk_by_title elements maxc n comb, GoodChunk maxc c := by
  unfold chunk_by_title
  by_cases he : elements = []
  · simp [he]
  · rw [if_neg he]
    have spec := loopChunks_spec elements maxc n comb
    have hgood : ∀ c ∈ loopChunks elements maxc n comb, GoodChunk maxc c :=
      fun c hc => ⟨(spec.2.1 c hc).2, (spec.2.1 c hc).1, spec.2.2.1 h c hc⟩
    by_cases hlen : 1 < (loopChunks elements maxc n comb).length
    · rw [if_pos hlen]
      cases hl : loopChunks elements maxc n comb with
      | nil =>
        intro c hc
        rw [mergePass] at hc
        exact absurd hc (by simp)
      | cons c0 rest =>
        exact mergePass_good maxc comb rest c0 (hgood c0 (by simp [hl]))
          (fun x hx => hgood x (by simp [hl, hx]))
    · rw [if_neg hlen]
      exact hgood

/-! ### C9 -/

/-- C9: `chunk_by_title` neither drops, duplicates nor reorders elements:
the `orig_elements` lists of the produced chunks concatenate, in order, to
exactly the input element list, for every choice of the three limits. -/
theorem chunk_by_title_elements_preserved (elements : List SimpleElement)
    (maxc n comb : Nat) :
    ((chunk_by_title elements maxc n comb).map
        (fun c => c.metadata.orig_elements)).flatten = elements := by
  unfold chunk_by_title
  by_cases he : elements = []
  · simp [he]
  · rw [if_neg he]
    have spec1 := (loopChunks_spec elements maxc n comb).1
    by_cases hlen : 1 < (loopChunks elements maxc n comb).length
    · rw [if_pos hlen]
      cases hl : loopChunks elements maxc n comb with
      | nil =>
        rw [hl] at spec1
        rw [mergePass]
        exact spec1
      | cons c0 rest =>
        rw [mergePass_flatten maxc comb rest c0, ← hl]
        exact spec1
    · rw [if_neg hlen]
      exact spec1

/-! ### C1 -/

set_option maxRecDepth 10000 in
/-- C1 counterexample: two elements of 1500 characters each (each well
within the 3000-character hard maximum) are grouped into a single chunk
whose text is 3002 characters long — the two-character blank-line separator
is not counted against the hard maximum, so a chunk's text can exceed 3000
even though no single element does. -/
theorem chunk_text_can_exceed_max :
    (∀ e ∈ [({ text := String.mk (List.replicate 1500 'a'),
                element_type := "NarrativeText",
                metadata := { page_number := 1 } } : SimpleElement),
             { text := String.mk (List.replicate 1500 'a'),
               element_type := "NarrativeText",
               metadata := { page_number := 1 } }],
      e.text.length ≤ 3000) ∧
    ∃ c ∈ chunk_by_title
        [({ text := String.mk (List.replicate 1500 'a'),
            element_type := "NarrativeText",
            metadata := { page_number := 1 } } : SimpleElement),
         { text := String.mk (List.replicate 1500 'a'),
           element_type := "NarrativeText",
           metadata := { page_number := 1 } }],
      3000 < c.text.length := by
  decide

/-- C1 (amended): with the default limits, if every input element's text is
at most 3000 characters, then every produced chunk's constituent element
texts sum to at most 3000 characters; the chunk's own text exceeds that sum
only by the two-character blank-line separators, so its length is at most
3000 + 2 * (number of constituent elements - 1). -/
theorem chunk_text_length_bound (elements : List SimpleElement)
    (h : ∀ e ∈ elements, e.text.length ≤ 3000) :
    ∀ c ∈ chunk_by_title elements,
      sumLens c.metadata.orig_elements ≤ 3000 ∧
      c.text.length ≤ 3000 + 2 * (c.metadata.orig_elements.length - 1) := by
  intro c hc
  have hg := chunk_by_title_good elements 3000 2400 500 h c hc
  refine ⟨hg.2.2, ?_⟩
  have hs := hg.2.2
  rw [good_text_length hg]
  omega

/-- A tiny concrete element, used as witness input. -/
def elHi : SimpleElement :=
  { text := "hi", element_type := "NarrativeText",
    metadata := { page_number := 1 } }

/-- The chunk `chunk_by_title` produces from `[elHi]`. -/
def chunkHi : SimpleChunk :=
  { text := "hi", metadata := { page_number := 1, orig_elements := [elHi] } }

/-- Witness for C1 (amended) at a one-element input. -/
theorem chunk_text_length_bound_witness :
    sumLens chunkHi.metadata.orig_elements ≤ 3000 ∧
    chunkHi.text.length ≤
      3000 + 2 * (chunkHi.metadata.orig_elements.length - 1) :=
  chunk_text_length_bound [elHi] (by decide) chunkHi (by decide)

/-! ### C3 -/

/-- First element of the C3 counterexample input: page 1. -/
def elA1 : SimpleElement :=
  { text := "aaaaa", element_type := "NarrativeText",
    metadata := { page_number := 1 } }

/-- Second element of the C3 counterexample input: page 2. -/
def elB2 : SimpleElement :=
  { text := "b", element_type := "NarrativeText",
    metadata := { page_number := 2 } }

/-- C3 counterexample: with limits (10, 5, 3), the elements
[("aaaaa", page 1), ("b", page 2)] produce a first chunk that contains only
the page-1 element but is labelled page 2 — the page number recorded at
flush time is that of the incoming element, which belongs to the next
chunk, not the chunk's own first element. -/
theorem chunk_page_not_first_element :
    ∃ c ∈ chunk_by_title [elA1, elB2] 10 5 3,
      c.metadata.orig_elements ≠ [] ∧
      c.metadata.orig_elements.head?.map (fun e => e.metadata.page_number) ≠
        some c.metadata.page_number := by
  have h1 : loopChunks [elA1, elB2] 10 5 3 =
      [{ text := "aaaaa",
         metadata := { page_number := 2, orig_elements := [elA1] } },
       { text := "b",
         metadata := { page_number := 2, orig_elements := [elB2] } }] := by
    decide
  have h2 : chunk_by_title [elA1, elB2] 10 5 3 =
      mergePass 10 3 (loopChunks [elA1, elB2] 10 5 3) := rfl
  rw [h2, h1, mergePass, if_neg (by decide), mergePass]
  decide

/-- C3 (amended): in the chunk list before the merge pass, each chunk's
`page_number` is the page of the most recently read element at the moment
the chunk is emitted: every non-final chunk's page number equals the page
number of the first element of the following chunk (the element whose
arrival closed it), and the final chunk's page number is the page number of
its own last element.  The merge pass keeps the first merged chunk's value
(see C10). -/
theorem loopChunks_page_semantics (elements : List SimpleElement)
    (maxc n comb : Nat) :
    List.Chain' chunkRel (loopChunks elements maxc n comb) ∧
    (∀ c, (loopChunks elements maxc n comb).getLast? = some c →
      ∃ e, c.metadata.orig_elements.getLast? = some e ∧
        c.metadata.page_number = e.metadata.page_number) :=
  ⟨(loopChunks_spec elements maxc n comb).2.2.2.1,
   (loopChunks_spec elements maxc n comb).2.2.2.2⟩

end Mindbook
